import Mathlib

/-!
Verification development for the Simple-Bookkeeping transaction tracker.

The application stores dated income/expense records and provides:
a range resolver (day/week/month/year windows, from `Statistics`),
an aggregation engine (totals and trend series, from `Statistics`),
an id-keyed reconciliation merger (from `handleImport` in `App.tsx`),
a schema migration on load (from `storageService.getExpenses`), and
a category registry with fallback lookup (from `constants.tsx`).

Timestamps are modelled as integer milliseconds since the Unix epoch and
the host platform `Date` object is modelled over the proleptic Gregorian
calendar in a fixed-offset timezone (all of the application's date
arithmetic is timezone-uniform, and the source performs no timezone
conversion).  Monetary amounts are modelled as exact rationals.
-/

/-! ## Calendar foundation: proleptic Gregorian conversions

`civilFromDays` and `daysFromCivil` are the standard era-based Gregorian
conversion algorithms used by mainstream `Date` implementations
(day number 0 = 1970-01-01).  They model the platform `Date` object the
source calls; they are not themselves source code of the repository. -/

/-- One civil (proleptic Gregorian) calendar date: year, 1-based month, 1-based day. -/
structure CivilDate where
  year : Int
  month : Int
  day : Int
deriving DecidableEq

/-- Year-of-era (0..399) from a day-of-era (0..146096). -/
def yoeOf (doe : Int) : Int :=
  ((doe - (doe / 1460) + (doe / 36524) - (doe / 146096)) / 365)

/-- Number of days of an era that precede its year-of-era `y` (March-based years). -/
def daysBeforeYoe (y : Int) : Int :=
  365 * y + (y / 4) - (y / 100)

/-- Era index of a day number. -/
def eraOf (z : Int) : Int := ((z + 719468) / 146097)

/-- Day-of-era (0..146096) of a day number. -/
def doeOf (z : Int) : Int := ((z + 719468) % 146097)

/-- Day-of-March-based-year (0..365) of a day-of-era. -/
def doyOfDoe (doe : Int) : Int := doe - daysBeforeYoe (yoeOf doe)

/-- March-based month index (0..11) of a day-of-year. -/
def mpOf (doy : Int) : Int := ((5 * doy + 2) / 153)

/-- Day-of-month (1..31) of a day-of-year. -/
def dayOfDoy (doy : Int) : Int := doy - ((153 * mpOf doy + 2) / 5) + 1

/-- Civil month (1..12) of a day-of-year. -/
def monthOfDoy (doy : Int) : Int := mpOf doy + (if mpOf doy < 10 then 3 else -9)

/-- Civil date of a day number (days since 1970-01-01). -/
def civilFromDays (z : Int) : CivilDate :=
  let doy := doyOfDoe (doeOf z)
  let m := monthOfDoy doy
  ⟨yoeOf (doeOf z) + eraOf z * 400 + (if m ≤ 2 then 1 else 0), m, dayOfDoy doy⟩

/-- March-shifted year of a civil date (January and February belong to the
previous March-based year). -/
def yAdj (y m : Int) : Int := y - (if m ≤ 2 then 1 else 0)

/-- Era index of a civil date. -/
def eraC (y m : Int) : Int := (yAdj y m / 400)

/-- Year-of-era (0..399) of a civil date. -/
def yoeC (y m : Int) : Int := (yAdj y m % 400)

/-- March-based month index (0..11) of a civil month (1..12). -/
def mpC (m : Int) : Int := if m > 2 then m - 3 else m + 9

/-- Day number of a civil date; linear in the day argument, so day 0 denotes
the day before the first of the month. -/
def daysFromCivil (y m d : Int) : Int :=
  eraC y m * 146097 +
    (yoeC y m * 365 + (yoeC y m / 4) - (yoeC y m / 100) +
      (((153 * mpC m + 2) / 5) + d - 1)) - 719468

/-- Gregorian leap-year test (as a decidable proposition). -/
def isLeap (y : Int) : Prop :=
  ((y % 4) = 0 ∧ (y % 100) ≠ 0) ∨ (y % 400) = 0

instance (y : Int) : Decidable (isLeap y) := by unfold isLeap; infer_instance

/-- Reference number of days of month `m` (1-based) of year `y`. -/
def refDaysInMonth (y m : Int) : Int :=
  if m = 2 then (if isLeap y then 29 else 28)
  else if m = 4 ∨ m = 6 ∨ m = 9 ∨ m = 11 then 30
  else 31

/-! ## JS `Date` surface

The source manipulates timestamps through the platform `Date` object.  We
model a `Date` as its integer millisecond timestamp in a fixed-offset
timezone (offset 0).  `jsSetDate` models the normalizing day-of-month
setter: setting the day-of-month to `n` shifts the timestamp by
`n - getDate` whole days, which is exactly the ECMAScript `MakeDay`
normalization in a fixed-offset zone. -/

def msPerDay : Int := 86400000

def msPerHour : Int := 3600000

def msPerMinute : Int := 60000

def msPerSecond : Int := 1000

/-- Day number containing timestamp `t` (local midnight boundary). -/
def dayNumber (t : Int) : Int := (t / msPerDay)

/-- Milliseconds elapsed since local midnight. -/
def msOfDay (t : Int) : Int := (t % msPerDay)

def jsGetFullYear (t : Int) : Int := (civilFromDays (dayNumber t)).year

/-- Month index, 0-based as in ECMAScript. -/
def jsGetMonth (t : Int) : Int := (civilFromDays (dayNumber t)).month - 1

/-- Day of month, 1-based. -/
def jsGetDate (t : Int) : Int := (civilFromDays (dayNumber t)).day

/-- Weekday, 0 = Sunday .. 6 = Saturday (1970-01-01 was a Thursday). -/
def jsGetDay (t : Int) : Int := ((dayNumber t + 4) % 7)

/-- ECMAScript `MakeDay`: day number of (year, 0-based month, day-of-month),
with out-of-range month and day normalized. -/
def jsMakeDay (y m d : Int) : Int := daysFromCivil (y + (m / 12)) ((m % 12) + 1) d

/-- Timestamp of the `new Date(y, m, d, hh, mi, ss, ms)` constructor. -/
def jsMakeTime (y m d hh mi ss ms : Int) : Int :=
  jsMakeDay y m d * msPerDay + hh * msPerHour + mi * msPerMinute + ss * msPerSecond + ms

/-- Model of `Date.prototype.setHours(hh, mi, ss, ms)`. -/
def jsSetHours (t hh mi ss ms : Int) : Int :=
  t - msOfDay t + hh * msPerHour + mi * msPerMinute + ss * msPerSecond + ms

/-- Model of `Date.prototype.setDate(n)` (normalizing day-of-month setter). -/
def jsSetDate (t n : Int) : Int := t + (n - jsGetDate t) * msPerDay

/-! ## Data model (`types.ts`)

A transaction record as it exists at runtime.  The `type` field is a plain
string at runtime: the import path spreads whatever string an imported
record carries, defaulting only a falsy one to "expense" and performing no
membership check, so values other than "income"/"expense" can occur. -/

structure Expense where
  id : String
  amount : Rat
  type : String
  category : String
  note : String
  date : Int
deriving DecidableEq

/-- Raw record shape before normalization (stored or imported data): the
`type` field may be absent (`none`), as in pre-income-feature backups. -/
structure RawItem where
  id : String
  amount : Rat
  type : Option String
  category : String
  note : String
  date : Int
deriving DecidableEq

/-- JS `x || dflt` on an optional string field: `none` and the empty string
are falsy and fall through to the default. -/
def jsOrString (v : Option String) (dflt : String) : String :=
  match v with
  | none => dflt
  | some s => if s = "" then dflt else s

inductive TimeRange
  | day
  | week
  | month
  | year
deriving DecidableEq

inductive ViewMode
  | expense
  | income
  | overview
deriving DecidableEq

/-! ## Range Resolver (`Statistics`, `dateFilteredExpenses` memo)

Translation of the `switch (range)` computing `start`/`end`.  The target
is first normalized to local midnight (`target.setHours(0,0,0,0)`). -/

structure ResolvedRange where
  start : Int
  stop : Int
deriving DecidableEq

def resolveRange (range : TimeRange) (currentDate : Int) : ResolvedRange :=
  let target := jsSetHours currentDate 0 0 0 0
  match range with
  | .day => ⟨target, jsSetHours target 23 59 59 999⟩
  | .week =>
    let day := if jsGetDay target = 0 then 7 else jsGetDay target
    let start := jsSetHours (jsSetDate target (jsGetDate target - day + 1)) 0 0 0 0
    let stop := jsSetHours (jsSetDate start (jsGetDate start + 6)) 23 59 59 999
    ⟨start, stop⟩
  | .month =>
    ⟨jsMakeTime (jsGetFullYear target) (jsGetMonth target) 1 0 0 0 0,
      jsMakeTime (jsGetFullYear target) (jsGetMonth target + 1) 0 23 59 59 999⟩
  | .year =>
    ⟨jsMakeTime (jsGetFullYear target) 0 1 0 0 0 0,
      jsMakeTime (jsGetFullYear target) 11 31 23 59 59 999⟩

/-- Range filter: `e.date >= start.getTime() && e.date <= end.getTime()`. -/
def dateFiltered (expenses : List Expense) (r : ResolvedRange) : List Expense :=
  expenses.filter (fun e => decide (r.start ≤ e.date) && decide (e.date ≤ r.stop))

/-! ## Aggregation Engine, totals pass (`Statistics`, second memo)

One fold over the filtered list accumulating `inc`, `exp` and (for the
expense/income view modes) the per-category map.  The category map models
a JS `Map` as an insertion-ordered association list.  The later
presentation step (mapping ids to display labels and sorting for the pie
chart) is not modelled; no property below concerns it. -/

structure AggState where
  inc : Rat
  exp : Rat
  catMap : List (String × Rat)
deriving DecidableEq

def mapGetD (m : List (String × Rat)) (k : String) : Rat :=
  match m.find? (fun p => p.1 == k) with
  | some p => p.2
  | none => 0

def mapSet (m : List (String × Rat)) (k : String) (v : Rat) : List (String × Rat) :=
  match m with
  | [] => [(k, v)]
  | p :: rest => if p.1 == k then (k, v) :: rest else p :: mapSet rest k v

def aggStep (vm : ViewMode) (s : AggState) (e : Expense) : AggState :=
  let s1 :=
    if e.type = "income" then { s with inc := s.inc + e.amount }
    else if e.type = "expense" then { s with exp := s.exp + e.amount }
    else s
  if vm = ViewMode.expense ∧ e.type = "expense" then
    { s1 with catMap := mapSet s1.catMap e.category (mapGetD s1.catMap e.category + e.amount) }
  else if vm = ViewMode.income ∧ e.type = "income" then
    { s1 with catMap := mapSet s1.catMap e.category (mapGetD s1.catMap e.category + e.amount) }
  else s1

def aggregate (vm : ViewMode) (l : List Expense) : AggState :=
  l.foldl (aggStep vm) ⟨0, 0, []⟩

def totalIncome (vm : ViewMode) (l : List Expense) : Rat := (aggregate vm l).inc

def totalExpense (vm : ViewMode) (l : List Expense) : Rat := (aggregate vm l).exp

def balance (vm : ViewMode) (l : List Expense) : Rat :=
  totalIncome vm l - totalExpense vm l

/-! ## Aggregation Engine, trend pass (`Statistics`, `trendData` memo)

Buckets carry a display name, income and expense accumulators and a sort
index, as in the source.  `data[i].income += e.amount` is modelled by
point modification of the bucket list; an out-of-range index leaves the
list unchanged (in the source such an index would fault, and the bounds
lemmas below show it cannot occur for week/year, nor for in-cap days in
month view). -/

structure Bucket where
  name : String
  income : Rat
  expense : Rat
  sortIndex : Int
deriving DecidableEq

def listModify (f : α → α) : Nat → List α → List α
  | _, [] => []
  | 0, a :: as => f a :: as
  | n + 1, a :: as => a :: listModify f n as

def addIncome (amt : Rat) (b : Bucket) : Bucket := { b with income := b.income + amt }

def addExpense (amt : Rat) (b : Bucket) : Bucket := { b with expense := b.expense + amt }

def weekDayNames : List String := ["周一", "周二", "周三", "周四", "周五", "周六", "周日"]

def weekSeed : List Bucket :=
  (List.range 7).map (fun i => ⟨weekDayNames.getD i "", 0, 0, (i : Int)⟩)

/-- Per-transaction step of the week trend: `dayIndex = getDay - 1`, with
Sunday (`-1`) remapped to 6; income goes to the income accumulator,
everything else to the expense accumulator. -/
def weekStep (data : List Bucket) (e : Expense) : List Bucket :=
  let dayIndex := jsGetDay e.date - 1
  let idx := if dayIndex = -1 then 6 else dayIndex
  if e.type = "income" then listModify (addIncome e.amount) idx.toNat data
  else listModify (addExpense e.amount) idx.toNat data

def trendWeek (l : List Expense) : List Bucket := l.foldl weekStep weekSeed

/-- Cap for the month trend: the month length, except for the current
calendar month where it is today's day-of-month. -/
def monthLimitDay (now rangeStart : Int) : Int :=
  if jsGetFullYear rangeStart = jsGetFullYear now ∧ jsGetMonth rangeStart = jsGetMonth now then
    jsGetDate now
  else jsGetDate (jsMakeTime (jsGetFullYear rangeStart) (jsGetMonth rangeStart + 1) 0 0 0 0 0)

def monthSeed (now rangeStart : Int) : List Bucket :=
  (List.range (monthLimitDay now rangeStart).toNat).map
    (fun i : Nat =>
      ⟨toString (jsGetMonth rangeStart + 1) ++ "/" ++ toString ((i : Int) + 1), 0, 0,
        (i : Int) + 1⟩)

/-- Per-transaction step of the month trend: day-of-month selects the
bucket, and days beyond the cap are skipped. -/
def monthStep (limit : Int) (data : List Bucket) (e : Expense) : List Bucket :=
  if jsGetDate e.date ≤ limit then
    if e.type = "income" then listModify (addIncome e.amount) (jsGetDate e.date - 1).toNat data
    else listModify (addExpense e.amount) (jsGetDate e.date - 1).toNat data
  else data

def trendMonth (now rangeStart : Int) (l : List Expense) : List Bucket :=
  l.foldl (monthStep (monthLimitDay now rangeStart)) (monthSeed now rangeStart)

def yearSeed : List Bucket :=
  (List.range 12).map
    (fun i : Nat => ⟨toString ((i : Int) + 1) ++ "月", 0, 0, (i : Int) + 1⟩)

/-- Per-transaction step of the year trend: 0-based month selects the bucket. -/
def yearStep (data : List Bucket) (e : Expense) : List Bucket :=
  let monthIndex := jsGetMonth e.date
  if e.type = "income" then listModify (addIncome e.amount) monthIndex.toNat data
  else listModify (addExpense e.amount) monthIndex.toNat data

def trendYear (l : List Expense) : List Bucket := l.foldl yearStep yearSeed

/-- Trend series for the bar chart, by granularity (`trendData` memo).
`now` is the wall clock instant, `rangeStart` the resolved range start,
`l` the date-filtered transaction list, `tInc`/`tExp` the totals of the
same filtered list. -/
def trendData (range : TimeRange) (now rangeStart : Int) (l : List Expense)
    (tInc tExp : Rat) : List Bucket :=
  match range with
  | .day => [⟨"今日", tInc, tExp, 0⟩]
  | .week => trendWeek l
  | .month => trendMonth now rangeStart l
  | .year => trendYear l

/-! ## Reconciliation Merger and import workflow (`App.tsx`, `handleImport`)

The merge seeds a working id set from the existing list and walks the
incoming records in order, appending each record whose id is new (after
normalizing a missing/falsy `type` to "expense") and counting it. -/

def normalizeItem (r : RawItem) : Expense :=
  ⟨r.id, r.amount, jsOrString r.type "expense", r.category, r.note, r.date⟩

def mergeLoop : List String → List Expense → Nat → List RawItem → List Expense × Nat
  | _, acc, n, [] => (acc, n)
  | ids, acc, n, item :: rest =>
    if item.id ∈ ids then mergeLoop ids acc n rest
    else mergeLoop (item.id :: ids) (acc ++ [normalizeItem item]) (n + 1) rest

def mergeExpenses (existing : List Expense) (incoming : List RawItem) :
    List Expense × Nat :=
  mergeLoop (existing.map (fun e => e.id)) existing 0 incoming

/-- Stable descending-by-date insertion, modelling the caller's
`newExpenses.sort((a, b) => b.date - a.date)` (ECMAScript sort is stable). -/
def insertByDate (e : Expense) : List Expense → List Expense
  | [] => [e]
  | x :: xs => if e.date > x.date then e :: x :: xs else x :: insertByDate e xs

def sortByDateDesc (l : List Expense) : List Expense :=
  l.foldr insertByDate []

/-- Outcome classes of the import workflow, matching its `alert` branches. -/
inductive ImportMsg
  | parseError
  | formatNotArray
  | formatBadFields
  | imported (n : Nat)
  | noNewRecords
deriving DecidableEq

/-- Parsed shape of the imported file: invalid JSON, a non-array JSON value,
or an array of records. -/
inductive ImportPayload
  | parseFail
  | notArray
  | items (l : List RawItem)
deriving DecidableEq

/-- JS truthiness of `item.id` (a missing id is modelled by the empty string). -/
def itemTruthyId (r : RawItem) : Bool := decide (r.id ≠ "")

/-- JS truthiness of `item.amount` (0 is falsy). -/
def itemTruthyAmount (r : RawItem) : Bool := decide (r.amount ≠ 0)

structure ImportResult where
  expenses : List Expense
  added : Nat
  message : ImportMsg
deriving DecidableEq

/-- Translation of the `reader.onload` body of `handleImport`: parse and
shape errors abort with the state untouched; otherwise merge, and commit
the re-sorted merged list only when something was added. -/
def handleImport (payload : ImportPayload) (expenses : List Expense) : ImportResult :=
  match payload with
  | .parseFail => ⟨expenses, 0, .parseError⟩
  | .notArray => ⟨expenses, 0, .formatNotArray⟩
  | .items l =>
    match l with
    | [] =>
      let r := mergeExpenses expenses []
      if r.2 > 0 then ⟨sortByDateDesc r.1, r.2, .imported r.2⟩
      else ⟨expenses, 0, .noNewRecords⟩
    | first :: _ =>
      if ¬ itemTruthyId first ∨ ¬ itemTruthyAmount first then
        ⟨expenses, 0, .formatBadFields⟩
      else
        let r := mergeExpenses expenses l
        if r.2 > 0 then ⟨sortByDateDesc r.1, r.2, .imported r.2⟩
        else ⟨expenses, 0, .noNewRecords⟩

/-! ## Schema migration on load (`storageService.getExpenses`)

Stored data may be absent, unparsable, or parse to a non-array (whose
`.map` faults and is caught); each of these degrades to the empty list.
An array is migrated record-wise: a missing/falsy `type` becomes
"expense". -/

inductive StoredData
  | absent
  | unreadable
  | notArray
  | arr (l : List RawItem)
deriving DecidableEq

def migrateRecord (r : RawItem) : RawItem :=
  { r with type := some (jsOrString r.type "expense") }

def getExpenses : StoredData → List RawItem
  | .absent => []
  | .unreadable => []
  | .notArray => []
  | .arr l => l.map migrateRecord

/-! ## Category registry (`constants.tsx`) -/

structure CategoryDef where
  id : String
  label : String
  icon : String
  color : String
deriving DecidableEq

def EXPENSE_CATEGORIES : List CategoryDef :=
  [⟨"food", "餐饮", "Utensils", "bg-orange-100 text-orange-600"⟩,
    ⟨"transport", "交通", "Bus", "bg-blue-100 text-blue-600"⟩,
    ⟨"shopping", "购物", "ShoppingBag", "bg-pink-100 text-pink-600"⟩,
    ⟨"housing", "居住", "Home", "bg-yellow-100 text-yellow-600"⟩,
    ⟨"entertainment", "娱乐", "Gamepad2", "bg-purple-100 text-purple-600"⟩,
    ⟨"medical", "医疗", "Stethoscope", "bg-green-100 text-green-600"⟩,
    ⟨"study", "学习", "BookOpen", "bg-indigo-100 text-indigo-600"⟩,
    ⟨"other", "其他", "MoreHorizontal", "bg-gray-100 text-gray-600"⟩]

def INCOME_CATEGORIES : List CategoryDef :=
  [⟨"salary", "工资", "Banknote", "bg-emerald-100 text-emerald-600"⟩,
    ⟨"bonus", "奖金", "Coins", "bg-amber-100 text-amber-600"⟩,
    ⟨"investment", "理财", "TrendingUp", "bg-red-100 text-red-600"⟩,
    ⟨"other_income", "其他", "Wallet", "bg-cyan-100 text-cyan-600"⟩]

def CATEGORIES : List CategoryDef := EXPENSE_CATEGORIES ++ INCOME_CATEGORIES

/-- Lookup with fallback: `CATEGORIES.find(c => c.id === id) || EXPENSE_CATEGORIES[7]`. -/
def getCategoryConfig (id : String) : CategoryDef :=
  match CATEGORIES.find? (fun c => c.id == id) with
  | some c => c
  | none => (EXPENSE_CATEGORIES.getD 7 ⟨"", "", "", ""⟩)

/-! ## Specification-side sums

Reference sums over a transaction list, used to state the totals and
conservation properties. -/

def incSum (l : List Expense) : Rat :=
  (l.map (fun e => if e.type = "income" then e.amount else 0)).sum

def expSum (l : List Expense) : Rat :=
  (l.map (fun e => if e.type = "expense" then e.amount else 0)).sum

def nonIncSum (l : List Expense) : Rat :=
  (l.map (fun e => if e.type = "income" then 0 else e.amount)).sum

def amtSum (l : List Expense) : Rat :=
  (l.map (fun e => e.amount)).sum

def sumIncome (l : List Bucket) : Rat := (l.map (fun b => b.income)).sum

def sumExpense (l : List Bucket) : Rat := (l.map (fun b => b.expense)).sum

/-! ### Kind-split sum lemmas -/

def weirdSum (l : List Expense) : Rat :=
  (l.map (fun e => if e.type ≠ "income" ∧ e.type ≠ "expense" then e.amount else 0)).sum

def otherCategory : CategoryDef :=
  ⟨"other", "其他", "MoreHorizontal", "bg-gray-100 text-gray-600"⟩

def cexNow : Int := 19753 * msPerDay + 43200000

def cexRangeStart : Int := daysFromCivil 2024 1 1 * msPerDay

/-! ### Week resolver: spec-side midnight and weekday index -/

def anchorMidnight (t : Int) : Int := jsSetHours t 0 0 0 0

def weekdayIdx (t : Int) : Int :=
  if jsGetDay (anchorMidnight t) = 0 then 7 else jsGetDay (anchorMidnight t)

def wExp1 : Expense :=
  ⟨"1", 100, "expense", "food", "", daysFromCivil 2024 3 5 * msPerDay + 43200000⟩

def wInc1 : Expense :=
  ⟨"2", 50, "income", "salary", "", daysFromCivil 2024 3 20 * msPerDay + 43200000⟩

def w3Txs : List Expense := [wExp1, wInc1]

def w3Anchor : Int := daysFromCivil 2024 3 20 * msPerDay + 43200000

def w5L : List Expense := dateFiltered w3Txs (resolveRange TimeRange.week w3Anchor)

def w4T : Int := 19799 * msPerDay + 54000000

def wFirst : RawItem := ⟨"", 5, none, "food", "", 0⟩

def wCur : List Expense := [wExp1]

def wR7 : RawItem := ⟨"1", 5, none, "food", "", 0⟩

def w10E : Expense := ⟨"9", 7, "transfer", "other", "", daysFromCivil 2024 3 5 * msPerDay⟩

def w10L : List Expense := [w10E]

def w9A : List Expense := [wExp1]

def w9B : List RawItem :=
  [⟨"2", 50, some "income", "salary", "", 0⟩, ⟨"1", 1, none, "x", "", 0⟩]

def w2Now : Int := daysFromCivil 2024 1 15 * msPerDay + 43200000

def w2NowOther : Int := 19802 * msPerDay

def w2Rs : Int := daysFromCivil 2024 1 1 * msPerDay

def w2E : Expense := ⟨"7", 3, "expense", "food", "", daysFromCivil 2024 1 20 * msPerDay⟩

/-! ## Properties and claim theorems -/

/-! ### Analysis of `yoeOf`: monotonicity, endpoint tables, uniqueness -/

theorem yoeOf_step (doe : Int) (h0 : 0 ≤ doe) (h1 : doe ≤ 146095) :
    yoeOf doe ≤ yoeOf (doe + 1) := by
  rcases eq_or_lt_of_le h1 with heq | hlt
  · subst heq; decide
  · have hn : doe - (doe / 1460) + (doe / 36524) - (doe / 146096) ≤
        (doe + 1) - ((doe + 1) / 1460) + ((doe + 1) / 36524) -
          ((doe + 1) / 146096) := by
      have he : ((doe + 1) / 146096) = (doe / 146096) := by omega
      omega
    unfold yoeOf
    omega

theorem yoeOf_mono (d1 d2 : Int) (h0 : 0 ≤ d1) (h12 : d1 ≤ d2) (h2 : d2 ≤ 146096) :
    yoeOf d1 ≤ yoeOf d2 := by
  have H : ∀ n : Int, d1 ≤ n → n ≤ 146096 → yoeOf d1 ≤ yoeOf n := by
    refine Int.le_induction ?_ ?_
    · intro _
      exact le_refl _
    · intro k hk ih hk2
      have hstep := yoeOf_step k (by omega) (by omega)
      have := ih (by omega)
      omega
  exact H d2 h12 h2

set_option maxRecDepth 8000 in
theorem yoeOf_left_table : ∀ y : Nat, y < 400 →
    yoeOf (daysBeforeYoe ((y : Int))) = (y : Int) := by
  decide

set_option maxRecDepth 8000 in
theorem yoeOf_right_table : ∀ y : Nat, y < 400 →
    yoeOf (daysBeforeYoe ((y : Int) + 1) - 1) = (y : Int) := by
  decide

theorem daysBeforeYoe_bound (y : Int) (h0 : 0 ≤ y) (h1 : y ≤ 399) :
    0 ≤ daysBeforeYoe y ∧ daysBeforeYoe (y + 1) ≤ 146096 ∧
      daysBeforeYoe y + 365 ≤ daysBeforeYoe (y + 1) ∧
      daysBeforeYoe (y + 1) ≤ daysBeforeYoe y + 366 := by
  unfold daysBeforeYoe
  omega

/-- Any day-of-era in `[daysBeforeYoe y, daysBeforeYoe (y+1))` lies in year-of-era `y`. -/
theorem yoeOf_unique (y doe : Int) (hy0 : 0 ≤ y) (hy1 : y ≤ 399)
    (hl : daysBeforeYoe y ≤ doe) (hr : doe < daysBeforeYoe (y + 1)) :
    yoeOf doe = y := by
  obtain ⟨yn, rfl⟩ : ∃ n : Nat, ((n : Int)) = y :=
    ⟨y.toNat, by omega⟩
  have hyn : yn < 400 := by omega
  have hlt := yoeOf_left_table yn hyn
  have hrt := yoeOf_right_table yn hyn
  have hb := daysBeforeYoe_bound ((yn : Int)) (by omega) (by omega)
  have h1 : yoeOf (daysBeforeYoe ((yn : Int))) ≤ yoeOf doe :=
    yoeOf_mono _ _ (by omega) hl (by omega)
  have h2 : yoeOf doe ≤ yoeOf (daysBeforeYoe ((yn : Int) + 1) - 1) :=
    yoeOf_mono _ _ (by omega) (by omega) (by omega)
  omega

/-- The last day of an era (doe = 146096, a Feb 29) belongs to year-of-era 399. -/
theorem yoeOf_last : yoeOf 146096 = 399 := by decide

theorem daysBeforeYoe_399 : daysBeforeYoe 399 = 145731 ∧ daysBeforeYoe 400 = 146096 := by
  decide

/-- Bracketing: every day-of-era lies within the March-based year `yoeOf` assigns it. -/
theorem doe_bracket (doe : Int) (h0 : 0 ≤ doe) (h1 : doe ≤ 146096) :
    0 ≤ yoeOf doe ∧ yoeOf doe ≤ 399 ∧
      daysBeforeYoe (yoeOf doe) ≤ doe ∧ doe - daysBeforeYoe (yoeOf doe) ≤ 365 := by
  rcases eq_or_lt_of_le h1 with heq | hlt
  · subst heq; decide
  · have hrange : 0 ≤ yoeOf doe ∧ yoeOf doe ≤ 399 := by
      unfold yoeOf; omega
    obtain ⟨yn, hyn, hdl, hdr⟩ : ∃ n : Nat, n < 400 ∧
        daysBeforeYoe ((n : Int)) ≤ doe ∧ doe < daysBeforeYoe ((n : Int) + 1) := by
      by_contra hno
      push_neg at hno
      have key : ∀ n : Nat, n < 400 → daysBeforeYoe ((n : Int)) ≤ doe →
          daysBeforeYoe ((n : Int) + 1) ≤ doe := by
        intro n hn hle
        have := hno n hn hle
        omega
      have grow : ∀ n : Nat, n ≤ 400 → daysBeforeYoe ((n : Int)) ≤ doe := by
        intro n
        induction n with
        | zero => intro _; unfold daysBeforeYoe; omega
        | succ k ih =>
          intro hk
          have h1 := ih (by omega)
          have h2 := key k (by omega) h1
          have hcast : (((k + 1 : Nat) : Int)) = (k : Int) + 1 := by push_cast; ring
          rw [hcast]
          exact h2
      have hg : daysBeforeYoe 400 ≤ doe := by
        have := grow 400 (le_refl _)
        norm_num at this
        exact this
      have := daysBeforeYoe_399
      omega
    have heq := yoeOf_unique ((yn : Int)) doe (by omega) (by omega) hdl hdr
    have hb := daysBeforeYoe_bound ((yn : Int)) (by omega) (by omega)
    rw [heq]
    omega

theorem civilFromDays_month (z : Int) :
    (civilFromDays z).month = monthOfDoy (doyOfDoe (doeOf z)) := rfl

theorem civilFromDays_day (z : Int) :
    (civilFromDays z).day = dayOfDoy (doyOfDoe (doeOf z)) := rfl

theorem civilFromDays_year (z : Int) :
    (civilFromDays z).year = yoeOf (doeOf z) + eraOf z * 400 +
      (if monthOfDoy (doyOfDoe (doeOf z)) ≤ 2 then 1 else 0) := rfl

theorem doeOf_range (z : Int) : 0 ≤ doeOf z ∧ doeOf z ≤ 146096 := by
  unfold doeOf
  omega

/-- Day-of-year bounds for every day number. -/
theorem doy_range (z : Int) : 0 ≤ doyOfDoe (doeOf z) ∧ doyOfDoe (doeOf z) ≤ 365 := by
  have h := doeOf_range z
  have hb := doe_bracket (doeOf z) h.1 h.2
  unfold doyOfDoe
  omega

/-- Month and day-of-month bounds from day-of-year bounds. -/
theorem monthDay_range (doy : Int) (h0 : 0 ≤ doy) (h1 : doy ≤ 365) :
    1 ≤ monthOfDoy doy ∧ monthOfDoy doy ≤ 12 ∧ 1 ≤ dayOfDoy doy ∧ dayOfDoy doy ≤ 31 := by
  unfold monthOfDoy dayOfDoy mpOf
  omega

/-- Bounds of the civil components of every day number. -/
theorem civil_range (z : Int) :
    1 ≤ (civilFromDays z).month ∧ (civilFromDays z).month ≤ 12 ∧
      1 ≤ (civilFromDays z).day ∧ (civilFromDays z).day ≤ 31 := by
  rw [civilFromDays_month, civilFromDays_day]
  have h := doy_range z
  exact ⟨(monthDay_range _ h.1 h.2).1, (monthDay_range _ h.1 h.2).2.1,
    (monthDay_range _ h.1 h.2).2.2.1, (monthDay_range _ h.1 h.2).2.2.2⟩

/-! ### Month lengths: the civil day before the first of a month -/

theorem daysFromCivil_day_zero (y m : Int) :
    daysFromCivil y m 0 = daysFromCivil y m 1 - 1 := by
  unfold daysFromCivil
  ring

/-- Table of day-of-month values at the end of each March-based month
`mp - 1` (March .. January, none of which is a February). -/
theorem dayOfDoy_table : ∀ k : Nat, 1 ≤ k → k ≤ 11 →
    dayOfDoy ((153 * (k : Int) + 2) / 5 - 1) =
      [31, 30, 31, 30, 31, 31, 30, 31, 30, 31, 31].getD (k - 1) 0 := by
  decide

/-- End-of-February day-of-year values. -/
theorem dayOfDoy_feb : dayOfDoy 364 = 28 ∧ dayOfDoy 365 = 29 := by
  decide

/-- Day component of the day preceding the first of civil month (Y, M): it is
the length of the preceding month. -/
theorem civil_day_of_prev (Y M : Int) (h1 : 1 ≤ M) (h2 : M ≤ 12) :
    (civilFromDays (daysFromCivil Y M 1 - 1)).day =
      refDaysInMonth (if M = 1 then Y - 1 else Y) (if M = 1 then 12 else M - 1) := by
  rw [civilFromDays_day]
  have hyoe : 0 ≤ yoeC Y M ∧ yoeC Y M ≤ 399 := by
    unfold yoeC
    omega
  have hTb := daysBeforeYoe_bound (yoeC Y M) hyoe.1 hyoe.2
  by_cases hM3 : M = 3
  · subst hM3
    have hmp3 : mpC 3 = 0 := by decide
    have hz2 : daysFromCivil Y 3 1 - 1 + 719468 =
        eraC Y 3 * 146097 + daysBeforeYoe (yoeC Y 3) - 1 := by
      unfold daysFromCivil daysBeforeYoe
      rw [hmp3]
      omega
    by_cases hy0 : yoeC Y 3 = 0
    · have hT0 : daysBeforeYoe (yoeC Y 3) = 0 := by
        rw [hy0]
        decide
      have hdoe : doeOf (daysFromCivil Y 3 1 - 1) = 146096 ∧
          eraOf (daysFromCivil Y 3 1 - 1) = eraC Y 3 - 1 := by
        unfold doeOf eraOf
        omega
      have hdoy : doyOfDoe (doeOf (daysFromCivil Y 3 1 - 1)) = 365 := by
        rw [hdoe.1]
        unfold doyOfDoe
        rw [yoeOf_last]
        have h399 := daysBeforeYoe_399
        omega
      rw [hdoy, dayOfDoy_feb.2]
      have h400 : Y % 400 = 0 := by
        unfold yoeC yAdj at hy0
        norm_num at hy0
        omega
      have hLY : isLeap Y := Or.inr h400
      unfold refDaysInMonth
      norm_num
      rw [if_pos hLY]
    · have hTprev := daysBeforeYoe_bound (yoeC Y 3 - 1) (by omega) (by omega)
      rw [show yoeC Y 3 - 1 + 1 = yoeC Y 3 by ring] at hTprev
      have hdoe : doeOf (daysFromCivil Y 3 1 - 1) = daysBeforeYoe (yoeC Y 3) - 1 ∧
          eraOf (daysFromCivil Y 3 1 - 1) = eraC Y 3 := by
        unfold doeOf eraOf
        omega
      have hyoeq : yoeOf (doeOf (daysFromCivil Y 3 1 - 1)) = yoeC Y 3 - 1 := by
        rw [hdoe.1]
        apply yoeOf_unique _ _ (by omega) (by omega)
        · omega
        · rw [show yoeC Y 3 - 1 + 1 = yoeC Y 3 by ring]
          omega
      have hdoy : doyOfDoe (doeOf (daysFromCivil Y 3 1 - 1)) =
          daysBeforeYoe (yoeC Y 3) - 1 - daysBeforeYoe (yoeC Y 3 - 1) := by
        unfold doyOfDoe
        rw [hyoeq, hdoe.1]
      have hYw : Y % 400 = yoeC Y 3 := by
        unfold yoeC yAdj
        norm_num
      have hTw : daysBeforeYoe (yoeC Y 3) =
          365 * yoeC Y 3 + (yoeC Y 3 / 4) - (yoeC Y 3 / 100) := by
        unfold daysBeforeYoe
        ring
      have hTw2 : daysBeforeYoe (yoeC Y 3 - 1) =
          365 * (yoeC Y 3 - 1) + ((yoeC Y 3 - 1) / 4) - ((yoeC Y 3 - 1) / 100) := by
        unfold daysBeforeYoe
        ring
      have hj4 : (yoeC Y 3 % 4 = 0 ∧ yoeC Y 3 / 4 - (yoeC Y 3 - 1) / 4 = 1) ∨
          (yoeC Y 3 % 4 ≠ 0 ∧ yoeC Y 3 / 4 - (yoeC Y 3 - 1) / 4 = 0) := by
        omega
      have hj100 : (yoeC Y 3 % 100 = 0 ∧ yoeC Y 3 / 100 - (yoeC Y 3 - 1) / 100 = 1) ∨
          (yoeC Y 3 % 100 ≠ 0 ∧ yoeC Y 3 / 100 - (yoeC Y 3 - 1) / 100 = 0) := by
        omega
      unfold refDaysInMonth
      norm_num
      by_cases hL : isLeap Y
      · rw [if_pos hL]
        unfold isLeap at hL
        have hD365 : daysBeforeYoe (yoeC Y 3) - 1 - daysBeforeYoe (yoeC Y 3 - 1) = 365 := by
          omega
        rw [hdoy, hD365, dayOfDoy_feb.2]
      · rw [if_neg hL]
        unfold isLeap at hL
        push_neg at hL
        have hD364 : daysBeforeYoe (yoeC Y 3) - 1 - daysBeforeYoe (yoeC Y 3 - 1) = 364 := by
          omega
        rw [hdoy, hD364, dayOfDoy_feb.1]
  · have hmp : 1 ≤ mpC M ∧ mpC M ≤ 11 := by
      unfold mpC
      split <;> omega
    have hz2 : daysFromCivil Y M 1 - 1 + 719468 =
        eraC Y M * 146097 +
          (daysBeforeYoe (yoeC Y M) + ((153 * mpC M + 2) / 5) - 1) := by
      unfold daysFromCivil daysBeforeYoe
      ring
    have hdoe : doeOf (daysFromCivil Y M 1 - 1) =
        daysBeforeYoe (yoeC Y M) + ((153 * mpC M + 2) / 5) - 1 ∧
        eraOf (daysFromCivil Y M 1 - 1) = eraC Y M := by
      unfold doeOf eraOf
      omega
    have hyoeq : yoeOf (doeOf (daysFromCivil Y M 1 - 1)) = yoeC Y M := by
      rw [hdoe.1]
      apply yoeOf_unique _ _ hyoe.1 hyoe.2
      · omega
      · omega
    have hdoy : doyOfDoe (doeOf (daysFromCivil Y M 1 - 1)) =
        ((153 * mpC M + 2) / 5) - 1 := by
      unfold doyOfDoe
      rw [hyoeq, hdoe.1]
      ring
    rw [hdoy]
    interval_cases M <;>
      simp_all [mpC, refDaysInMonth] <;>
      decide

/-- Value of `new Date(y, m + 1, 0).getDate()` (0-based month `m`): the number
of days of month `m + 1` (1-based) of year `y`. -/
theorem lastDay_eq_refDays (y m : Int) (h0 : 0 ≤ m) (h1 : m ≤ 11) :
    jsGetDate (jsMakeTime y (m + 1) 0 0 0 0 0) = refDaysInMonth y (m + 1) := by
  unfold jsGetDate jsMakeTime
  have hdn : dayNumber (jsMakeDay y (m + 1) 0 * msPerDay + 0 * msPerHour +
      0 * msPerMinute + 0 * msPerSecond + 0) = jsMakeDay y (m + 1) 0 := by
    unfold dayNumber msPerDay msPerHour msPerMinute msPerSecond
    omega
  rw [hdn]
  unfold jsMakeDay
  by_cases hm : m = 11
  · subst hm
    norm_num
    rw [daysFromCivil_day_zero, civil_day_of_prev (y + 1) 1 (by norm_num) (by norm_num)]
    norm_num
  · have hdiv : (m + 1) / 12 = 0 := by omega
    have hmod : (m + 1) % 12 = m + 1 := by omega
    rw [hdiv, hmod]
    norm_num
    rw [daysFromCivil_day_zero, civil_day_of_prev y (m + 1 + 1) (by omega) (by omega)]
    have hne : ¬(m + 1 + 1 = 1) := by omega
    rw [if_neg hne, if_neg hne]
    norm_num

/-! ### Totals-pass lemmas -/

theorem aggStep_inc (vm : ViewMode) (s : AggState) (e : Expense) :
    (aggStep vm s e).inc = s.inc + (if e.type = "income" then e.amount else 0) := by
  unfold aggStep
  split_ifs <;> simp_all

theorem aggStep_exp (vm : ViewMode) (s : AggState) (e : Expense) :
    (aggStep vm s e).exp = s.exp + (if e.type = "expense" then e.amount else 0) := by
  unfold aggStep
  split_ifs <;> simp_all

theorem foldl_aggStep_inc (vm : ViewMode) (l : List Expense) :
    ∀ s : AggState, (l.foldl (aggStep vm) s).inc = s.inc + incSum l := by
  induction l with
  | nil => intro s; simp [incSum]
  | cons e rest ih =>
    intro s
    simp only [List.foldl_cons]
    rw [ih, aggStep_inc]
    simp [incSum]
    ring

theorem foldl_aggStep_exp (vm : ViewMode) (l : List Expense) :
    ∀ s : AggState, (l.foldl (aggStep vm) s).exp = s.exp + expSum l := by
  induction l with
  | nil => intro s; simp [expSum]
  | cons e rest ih =>
    intro s
    simp only [List.foldl_cons]
    rw [ih, aggStep_exp]
    simp [expSum]
    ring

theorem totalIncome_eq (vm : ViewMode) (l : List Expense) :
    totalIncome vm l = incSum l := by
  unfold totalIncome aggregate
  rw [foldl_aggStep_inc]
  simp

theorem totalExpense_eq (vm : ViewMode) (l : List Expense) :
    totalExpense vm l = expSum l := by
  unfold totalExpense aggregate
  rw [foldl_aggStep_exp]
  simp

/-! ### Bucket-sum lemmas -/

theorem listModify_length (f : α → α) (i : Nat) (l : List α) :
    (listModify f i l).length = l.length := by
  induction l generalizing i with
  | nil => cases i <;> rfl
  | cons a as ih =>
    cases i with
    | zero => rfl
    | succ n => simp [listModify, ih]

theorem sum_map_listModify_add (g : α → Rat) (f : α → α) (δ : Rat)
    (hfg : ∀ x, g (f x) = g x + δ) (i : Nat) (l : List α) (hi : i < l.length) :
    ((listModify f i l).map g).sum = (l.map g).sum + δ := by
  induction l generalizing i with
  | nil => simp at hi
  | cons a as ih =>
    cases i with
    | zero => simp [listModify, hfg]; ring
    | succ n =>
      simp only [listModify, List.map_cons, List.sum_cons]
      rw [ih n (by simpa using hi)]
      ring

theorem sum_map_listModify_keep (g : α → Rat) (f : α → α)
    (hfg : ∀ x, g (f x) = g x) (i : Nat) (l : List α) :
    ((listModify f i l).map g).sum = (l.map g).sum := by
  induction l generalizing i with
  | nil => cases i <;> rfl
  | cons a as ih =>
    cases i with
    | zero => simp [listModify, hfg]
    | succ n => simp [listModify, ih]

/-! ### Index bounds for the trend buckets -/

theorem jsGetDay_range (t : Int) : 0 ≤ jsGetDay t ∧ jsGetDay t ≤ 6 := by
  unfold jsGetDay
  omega

theorem jsGetMonth_range (t : Int) : 0 ≤ jsGetMonth t ∧ jsGetMonth t ≤ 11 := by
  unfold jsGetMonth
  have h := civil_range (dayNumber t)
  omega

theorem jsGetDate_range (t : Int) : 1 ≤ jsGetDate t ∧ jsGetDate t ≤ 31 := by
  unfold jsGetDate
  have h := civil_range (dayNumber t)
  omega

/-! ### Week-trend accounting -/

theorem weekStep_length (d : List Bucket) (e : Expense) :
    (weekStep d e).length = d.length := by
  unfold weekStep
  split_ifs <;> apply listModify_length

theorem sumIncome_modify_addIncome (amt : Rat) (i : Nat) (l : List Bucket)
    (hi : i < l.length) :
    sumIncome (listModify (addIncome amt) i l) = sumIncome l + amt := by
  unfold sumIncome
  apply sum_map_listModify_add
  · intro x
    rfl
  · exact hi

theorem sumIncome_modify_addExpense (amt : Rat) (i : Nat) (l : List Bucket) :
    sumIncome (listModify (addExpense amt) i l) = sumIncome l := by
  unfold sumIncome
  apply sum_map_listModify_keep
  intro x
  rfl

theorem sumExpense_modify_addExpense (amt : Rat) (i : Nat) (l : List Bucket)
    (hi : i < l.length) :
    sumExpense (listModify (addExpense amt) i l) = sumExpense l + amt := by
  unfold sumExpense
  apply sum_map_listModify_add
  · intro x
    rfl
  · exact hi

theorem sumExpense_modify_addIncome (amt : Rat) (i : Nat) (l : List Bucket) :
    sumExpense (listModify (addIncome amt) i l) = sumExpense l := by
  unfold sumExpense
  apply sum_map_listModify_keep
  intro x
  rfl

theorem weekStep_sumIncome (d : List Bucket) (e : Expense) (hd : d.length = 7) :
    sumIncome (weekStep d e) = sumIncome d + (if e.type = "income" then e.amount else 0) := by
  have hidx := jsGetDay_range e.date
  unfold weekStep
  split_ifs with h
  · rw [sumIncome_modify_addIncome e.amount _ d (by split_ifs <;> omega)]
  · rw [sumIncome_modify_addExpense]
    simp

theorem weekStep_sumExpense (d : List Bucket) (e : Expense) (hd : d.length = 7) :
    sumExpense (weekStep d e) =
      sumExpense d + (if e.type = "income" then 0 else e.amount) := by
  have hidx := jsGetDay_range e.date
  unfold weekStep
  split_ifs with h
  · rw [sumExpense_modify_addIncome]
    simp
  · rw [sumExpense_modify_addExpense e.amount _ d (by split_ifs <;> omega)]

theorem foldl_weekStep_sums (l : List Expense) :
    ∀ d : List Bucket, d.length = 7 →
      sumIncome (l.foldl weekStep d) = sumIncome d + incSum l ∧
        sumExpense (l.foldl weekStep d) = sumExpense d + nonIncSum l := by
  induction l with
  | nil =>
    intro d hd
    simp [incSum, nonIncSum]
  | cons e rest ih =>
    intro d hd
    simp only [List.foldl_cons]
    have hlen : (weekStep d e).length = 7 := by rw [weekStep_length, hd]
    obtain ⟨h1, h2⟩ := ih (weekStep d e) hlen
    rw [h1, h2, weekStep_sumIncome d e hd, weekStep_sumExpense d e hd]
    constructor
    · simp [incSum]
      ring
    · simp [nonIncSum]
      ring

theorem weekSeed_facts :
    weekSeed.length = 7 ∧ sumIncome weekSeed = 0 ∧ sumExpense weekSeed = 0 := by
  refine ⟨?_, ?_, ?_⟩
  · unfold weekSeed
    rw [List.length_map, List.length_range]
  · simp [weekSeed, sumIncome, List.range_succ]
  · simp [weekSeed, sumExpense, List.range_succ]

/-- Conservation for the week trend: bucket sums reproduce the income sum
and the non-income sum of the filtered list. -/
theorem trendWeek_sums (l : List Expense) :
    sumIncome (trendWeek l) = incSum l ∧ sumExpense (trendWeek l) = nonIncSum l := by
  unfold trendWeek
  obtain ⟨h1, h2⟩ := foldl_weekStep_sums l weekSeed weekSeed_facts.1
  rw [h1, h2, weekSeed_facts.2.1, weekSeed_facts.2.2]
  simp

/-! ### Year-trend accounting -/

theorem yearStep_length (d : List Bucket) (e : Expense) :
    (yearStep d e).length = d.length := by
  unfold yearStep
  split_ifs <;> apply listModify_length

theorem yearStep_sumIncome (d : List Bucket) (e : Expense) (hd : d.length = 12) :
    sumIncome (yearStep d e) = sumIncome d + (if e.type = "income" then e.amount else 0) := by
  have hidx := jsGetMonth_range e.date
  unfold yearStep
  split_ifs with h
  · rw [sumIncome_modify_addIncome e.amount _ d (by omega)]
  · rw [sumIncome_modify_addExpense]
    simp

theorem yearStep_sumExpense (d : List Bucket) (e : Expense) (hd : d.length = 12) :
    sumExpense (yearStep d e) =
      sumExpense d + (if e.type = "income" then 0 else e.amount) := by
  have hidx := jsGetMonth_range e.date
  unfold yearStep
  split_ifs with h
  · rw [sumExpense_modify_addIncome]
    simp
  · rw [sumExpense_modify_addExpense e.amount _ d (by omega)]

theorem foldl_yearStep_sums (l : List Expense) :
    ∀ d : List Bucket, d.length = 12 →
      sumIncome (l.foldl yearStep d) = sumIncome d + incSum l ∧
        sumExpense (l.foldl yearStep d) = sumExpense d + nonIncSum l := by
  induction l with
  | nil =>
    intro d hd
    simp [incSum, nonIncSum]
  | cons e rest ih =>
    intro d hd
    simp only [List.foldl_cons]
    have hlen : (yearStep d e).length = 12 := by rw [yearStep_length, hd]
    obtain ⟨h1, h2⟩ := ih (yearStep d e) hlen
    rw [h1, h2, yearStep_sumIncome d e hd, yearStep_sumExpense d e hd]
    constructor
    · simp [incSum]
      ring
    · simp [nonIncSum]
      ring

theorem yearSeed_facts :
    yearSeed.length = 12 ∧ sumIncome yearSeed = 0 ∧ sumExpense yearSeed = 0 := by
  refine ⟨?_, ?_, ?_⟩
  · unfold yearSeed
    rw [List.length_map, List.length_range]
  · simp [yearSeed, sumIncome, List.range_succ]
  · simp [yearSeed, sumExpense, List.range_succ]

/-- Conservation for the year trend. -/
theorem trendYear_sums (l : List Expense) :
    sumIncome (trendYear l) = incSum l ∧ sumExpense (trendYear l) = nonIncSum l := by
  unfold trendYear
  obtain ⟨h1, h2⟩ := foldl_yearStep_sums l yearSeed yearSeed_facts.1
  rw [h1, h2, yearSeed_facts.2.1, yearSeed_facts.2.2]
  simp

/-! ### Month-trend accounting -/

theorem monthStep_length (limit : Int) (d : List Bucket) (e : Expense) :
    (monthStep limit d e).length = d.length := by
  unfold monthStep
  split_ifs <;> first | apply listModify_length | rfl

theorem monthStep_skip (limit : Int) (d : List Bucket) (e : Expense)
    (h : limit < jsGetDate e.date) : monthStep limit d e = d := by
  unfold monthStep
  rw [if_neg (by omega)]

theorem monthSeed_facts (now rs : Int) :
    (monthSeed now rs).length = (monthLimitDay now rs).toNat ∧
      sumIncome (monthSeed now rs) = 0 ∧ sumExpense (monthSeed now rs) = 0 := by
  refine ⟨?_, ?_, ?_⟩
  · unfold monthSeed
    rw [List.length_map, List.length_range]
  · unfold monthSeed sumIncome
    rw [List.map_map]
    apply List.sum_eq_zero
    intro x hx
    rw [List.mem_map] at hx
    obtain ⟨i, _, rfl⟩ := hx
    rfl
  · unfold monthSeed sumExpense
    rw [List.map_map]
    apply List.sum_eq_zero
    intro x hx
    rw [List.mem_map] at hx
    obtain ⟨i, _, rfl⟩ := hx
    rfl

/-- Per-step expense-sum accounting for the month trend: only in-cap,
non-income transactions contribute. -/
theorem monthStep_sumExpense (limit : Int) (d : List Bucket) (e : Expense)
    (hd : d.length = limit.toNat) :
    sumExpense (monthStep limit d e) =
      sumExpense d +
        (if jsGetDate e.date ≤ limit ∧ e.type ≠ "income" then e.amount else 0) := by
  have hday := jsGetDate_range e.date
  unfold monthStep
  by_cases hcap : jsGetDate e.date ≤ limit
  · rw [if_pos hcap]
    by_cases hinc : e.type = "income"
    · rw [if_pos hinc, sumExpense_modify_addIncome, if_neg (by simp [hinc])]
      ring
    · rw [if_neg hinc, if_pos ⟨hcap, hinc⟩,
        sumExpense_modify_addExpense e.amount _ d (by omega)]
  · rw [if_neg hcap, if_neg (by simp [hcap])]
    ring

theorem foldl_monthStep_sumExpense (limit : Int) (l : List Expense) :
    ∀ d : List Bucket, d.length = limit.toNat →
      sumExpense (l.foldl (monthStep limit) d) =
        sumExpense d +
          (l.map (fun e =>
            if jsGetDate e.date ≤ limit ∧ e.type ≠ "income" then e.amount else 0)).sum := by
  induction l with
  | nil =>
    intro d hd
    simp
  | cons e rest ih =>
    intro d hd
    simp only [List.foldl_cons, List.map_cons, List.sum_cons]
    have hlen : (monthStep limit d e).length = limit.toNat := by
      rw [monthStep_length, hd]
    rw [ih (monthStep limit d e) hlen, monthStep_sumExpense limit d e hd]
    ring

theorem trendMonth_length (now rs : Int) (l : List Expense) :
    (trendMonth now rs l).length = (monthLimitDay now rs).toNat := by
  unfold trendMonth
  have H : ∀ m : List Expense, ∀ d : List Bucket,
      (m.foldl (monthStep (monthLimitDay now rs)) d).length = d.length := by
    intro m
    induction m with
    | nil => intro d; rfl
    | cons e rest ih =>
      intro d
      simp only [List.foldl_cons]
      rw [ih, monthStep_length]
  rw [H, (monthSeed_facts now rs).1]

/-- Expense-sum characterization of the month trend. -/
theorem trendMonth_sumExpense (now rs : Int) (l : List Expense) :
    sumExpense (trendMonth now rs l) =
      (l.map (fun e =>
        if jsGetDate e.date ≤ monthLimitDay now rs ∧ e.type ≠ "income" then e.amount
        else 0)).sum := by
  unfold trendMonth
  rw [foldl_monthStep_sumExpense _ _ _ (monthSeed_facts now rs).1,
    (monthSeed_facts now rs).2.2]
  ring

/-- Value of the month cap: today's day-of-month for the current month, the
reference month length otherwise. -/
theorem monthLimitDay_eq (now rs : Int) :
    monthLimitDay now rs =
      (if jsGetFullYear rs = jsGetFullYear now ∧ jsGetMonth rs = jsGetMonth now then
        jsGetDate now
      else refDaysInMonth (jsGetFullYear rs) (jsGetMonth rs + 1)) := by
  unfold monthLimitDay
  have hm := jsGetMonth_range rs
  rw [lastDay_eq_refDays (jsGetFullYear rs) (jsGetMonth rs) hm.1 hm.2]

/-! ### Merge-loop lemmas -/

theorem mergeLoop_append (B : List RawItem) :
    ∀ (ids : List String) (acc : List Expense) (n : Nat),
      ∃ t, (mergeLoop ids acc n B).1 = acc ++ t := by
  induction B with
  | nil =>
    intro ids acc n
    exact ⟨[], by simp [mergeLoop]⟩
  | cons item rest ih =>
    intro ids acc n
    unfold mergeLoop
    split_ifs with h
    · exact ih ids acc n
    · obtain ⟨t, ht⟩ := ih (item.id :: ids) (acc ++ [normalizeItem item]) (n + 1)
      exact ⟨normalizeItem item :: t, by rw [ht]; simp⟩

theorem mergeLoop_length (B : List RawItem) :
    ∀ (ids : List String) (acc : List Expense) (n : Nat),
      (mergeLoop ids acc n B).1.length + n = acc.length + (mergeLoop ids acc n B).2 := by
  induction B with
  | nil =>
    intro ids acc n
    simp [mergeLoop]
  | cons item rest ih =>
    intro ids acc n
    unfold mergeLoop
    split_ifs with h
    · exact ih ids acc n
    · have := ih (item.id :: ids) (acc ++ [normalizeItem item]) (n + 1)
      simp at this
      omega

theorem normalizeItem_id (r : RawItem) : (normalizeItem r).id = r.id := rfl

/-- After a merge whose working id set covers the accumulated list, every
incoming id is present in the result. -/
theorem mergeLoop_covers (B : List RawItem) :
    ∀ (ids : List String) (acc : List Expense) (n : Nat),
      (∀ s ∈ ids, s ∈ acc.map (fun e => e.id)) →
      ∀ b ∈ B, b.id ∈ (mergeLoop ids acc n B).1.map (fun e => e.id) := by
  induction B with
  | nil =>
    intro ids acc n hinv b hb
    exact absurd hb (List.not_mem_nil b)
  | cons item rest ih =>
    intro ids acc n hinv b hb
    unfold mergeLoop
    split_ifs with h
    · rcases List.mem_cons.mp hb with hbe | hbr
      · obtain ⟨t, ht⟩ := mergeLoop_append rest ids acc n
        rw [ht, hbe]
        have : item.id ∈ acc.map (fun e => e.id) := hinv item.id h
        simp only [List.map_append, List.mem_append]
        exact Or.inl this
      · exact ih ids acc n hinv b hbr
    · have hinv2 : ∀ s ∈ item.id :: ids,
          s ∈ (acc ++ [normalizeItem item]).map (fun e => e.id) := by
        intro s hs
        rcases List.mem_cons.mp hs with hse | hsi
        · subst hse
          simp [normalizeItem_id]
        · have := hinv s hsi
          simp only [List.map_append, List.mem_append]
          exact Or.inl this
      rcases List.mem_cons.mp hb with hbe | hbr
      · obtain ⟨t, ht⟩ := mergeLoop_append rest (item.id :: ids)
          (acc ++ [normalizeItem item]) (n + 1)
        rw [ht, hbe]
        have : item.id ∈ (acc ++ [normalizeItem item]).map (fun e => e.id) :=
          hinv2 item.id (List.mem_cons_self _ _)
        simp only [List.map_append, List.mem_append] at this ⊢
        rcases this with h1 | h1
        · exact Or.inl (Or.inl h1)
        · exact Or.inl (Or.inr h1)
      · exact ih (item.id :: ids) (acc ++ [normalizeItem item]) (n + 1) hinv2 b hbr

/-- A merge whose incoming ids are all already present does nothing. -/
theorem mergeLoop_noop (B : List RawItem) :
    ∀ (ids : List String) (acc : List Expense) (n : Nat),
      (∀ b ∈ B, b.id ∈ ids) → mergeLoop ids acc n B = (acc, n) := by
  induction B with
  | nil =>
    intro ids acc n _
    rfl
  | cons item rest ih =>
    intro ids acc n hall
    unfold mergeLoop
    rw [if_pos (hall item (List.mem_cons_self _ _))]
    exact ih ids acc n (fun b hb => hall b (List.mem_cons_of_mem _ hb))

theorem nonIncSum_split (l : List Expense) :
    nonIncSum l = expSum l + weirdSum l := by
  induction l with
  | nil => simp [nonIncSum, expSum, weirdSum]
  | cons e rest ih =>
    unfold nonIncSum expSum weirdSum at ih ⊢
    simp only [List.map_cons, List.sum_cons]
    rw [ih]
    by_cases h1 : e.type = "income"
    · rw [if_pos h1, if_neg (by simp [h1]), if_neg (by simp [h1])]
      ring
    · rw [if_neg h1]
      by_cases h2 : e.type = "expense"
      · rw [if_pos h2, if_neg (by simp [h2])]
        ring
      · rw [if_neg h2, if_pos ⟨h1, h2⟩]
        ring

theorem sum_wellKinded (l : List Expense)
    (h : ∀ x ∈ l, x.type = "income" ∨ x.type = "expense") :
    incSum l + expSum l = amtSum l := by
  induction l with
  | nil => simp [incSum, expSum, amtSum]
  | cons e rest ih =>
    unfold incSum expSum amtSum at ih ⊢
    simp only [List.map_cons, List.sum_cons]
    have he := h e (List.mem_cons_self _ _)
    have ihr := ih (fun x hx => h x (List.mem_cons_of_mem _ hx))
    rcases he with h1 | h1
    · rw [if_pos h1, if_neg (by simp [h1])]
      rw [← ihr]
      ring
    · have h2 : e.type ≠ "income" := by simp [h1]
      rw [if_neg h2, if_pos h1]
      rw [← ihr]
      ring

theorem nonIncSum_wellKinded (l : List Expense)
    (h : ∀ x ∈ l, x.type = "income" ∨ x.type = "expense") :
    nonIncSum l = expSum l := by
  rw [nonIncSum_split]
  have hz : weirdSum l = 0 := by
    unfold weirdSum
    apply List.sum_eq_zero
    intro x hx
    rw [List.mem_map] at hx
    obtain ⟨e, he, rfl⟩ := hx
    rcases h e he with h1 | h1 <;> simp [h1]
  rw [hz]
  ring

theorem weirdSum_lower (l : List Expense) (e : Expense) (he : e ∈ l)
    (hni : e.type ≠ "income") (hne : e.type ≠ "expense")
    (hpos : ∀ x ∈ l, 0 < x.amount) : 0 < weirdSum l := by
  induction l with
  | nil => exact absurd he (List.not_mem_nil e)
  | cons a rest ih =>
    unfold weirdSum at ih ⊢
    simp only [List.map_cons, List.sum_cons]
    have hrest_nonneg : 0 ≤ (rest.map (fun x =>
        if x.type ≠ "income" ∧ x.type ≠ "expense" then x.amount else 0)).sum := by
      apply List.sum_nonneg
      intro x hx
      rw [List.mem_map] at hx
      obtain ⟨y, hy, rfl⟩ := hx
      have := hpos y (List.mem_cons_of_mem _ hy)
      split_ifs
      · linarith
      · norm_num
    rcases List.mem_cons.mp he with hea | her
    · rw [← hea]
      rw [if_pos ⟨hni, hne⟩]
      have := hpos e (by rw [hea]; exact List.mem_cons_self _ _)
      linarith
    · have hpos2 : ∀ x ∈ rest, 0 < x.amount :=
        fun x hx => hpos x (List.mem_cons_of_mem _ hx)
      have := ih her hpos2
      have hhead : 0 ≤ (if a.type ≠ "income" ∧ a.type ≠ "expense" then a.amount else 0) := by
        have := hpos a (List.mem_cons_self _ _)
        split_ifs <;> linarith
      linarith

theorem capSum_eq_nonIncSum (limit : Int) (l : List Expense)
    (hcap : ∀ x ∈ l, jsGetDate x.date ≤ limit) :
    (l.map (fun e =>
      if jsGetDate e.date ≤ limit ∧ e.type ≠ "income" then e.amount else 0)).sum =
      nonIncSum l := by
  induction l with
  | nil => simp [nonIncSum]
  | cons e rest ih =>
    unfold nonIncSum at ih ⊢
    simp only [List.map_cons, List.sum_cons]
    rw [ih (fun x hx => hcap x (List.mem_cons_of_mem _ hx))]
    have hc := hcap e (List.mem_cons_self _ _)
    by_cases h1 : e.type = "income"
    · rw [if_neg (by simp [h1]), if_pos h1]
    · rw [if_pos ⟨hc, h1⟩, if_neg h1]

/-! ## Claim theorems -/

/-- C1: merge is idempotent: re-running the merge with the same incoming
sequence against the merged result adds zero records and returns the
merged list unchanged. -/
theorem claim_C1_merge_idempotent (A : List Expense) (B : List RawItem) :
    mergeExpenses (mergeExpenses A B).1 B = ((mergeExpenses A B).1, 0) := by
  unfold mergeExpenses
  apply mergeLoop_noop
  intro b hb
  exact mergeLoop_covers B (A.map (fun e => e.id)) A 0 (fun s hs => hs) b hb

/-- C9: merge additivity and preservation: the merged list has length
`|A| + addedCount`, its first `|A|` elements are exactly `A`, and every
element of `A` is present unchanged in the result. -/
theorem claim_C9_merge_additivity (A : List Expense) (B : List RawItem) :
    (mergeExpenses A B).1.length = A.length + (mergeExpenses A B).2 ∧
    (mergeExpenses A B).1.take A.length = A ∧
    ∀ a ∈ A, a ∈ (mergeExpenses A B).1 := by
  unfold mergeExpenses
  have hlen := mergeLoop_length B (A.map (fun e => e.id)) A 0
  obtain ⟨t, ht⟩ := mergeLoop_append B (A.map (fun e => e.id)) A 0
  refine ⟨by omega, ?_, ?_⟩
  · rw [ht, List.take_left]
  · intro a ha
    rw [ht]
    exact List.mem_append_left _ ha

/-- C6: import is all-or-nothing: an unparsable payload, a non-array
payload, or a sampled first element with a falsy id or amount aborts the
operation with zero records merged and the existing list untouched. -/
theorem claim_C6_import_all_or_nothing (cur : List Expense) (first : RawItem)
    (rest : List RawItem) :
    handleImport ImportPayload.parseFail cur = ⟨cur, 0, ImportMsg.parseError⟩ ∧
    handleImport ImportPayload.notArray cur = ⟨cur, 0, ImportMsg.formatNotArray⟩ ∧
    ((¬ itemTruthyId first = true ∨ ¬ itemTruthyAmount first = true) →
      handleImport (ImportPayload.items (first :: rest)) cur =
        ⟨cur, 0, ImportMsg.formatBadFields⟩) := by
  refine ⟨rfl, rfl, ?_⟩
  intro h
  show (if ¬ itemTruthyId first = true ∨ ¬ itemTruthyAmount first = true then
      (⟨cur, 0, ImportMsg.formatBadFields⟩ : ImportResult)
    else
      let r := mergeExpenses cur (first :: rest)
      if r.2 > 0 then ⟨sortByDateDesc r.1, r.2, ImportMsg.imported r.2⟩
      else ⟨cur, 0, ImportMsg.noNewRecords⟩) = ⟨cur, 0, ImportMsg.formatBadFields⟩
  rw [if_pos h]

theorem migrateRecord_idem (r : RawItem) :
    migrateRecord (migrateRecord r) = migrateRecord r := by
  unfold migrateRecord jsOrString
  cases htype : r.type with
  | none => simp
  | some s =>
    by_cases h : s = "" <;> simp [h]

/-- C7: schema migration on load assigns kind "expense" to every record
missing the kind field, and migrating a record set twice yields the same
output as migrating it once. -/
theorem claim_C7_migration_stability (l : List RawItem) (r : RawItem) :
    (r.type = none → (migrateRecord r).type = some "expense") ∧
    getExpenses (StoredData.arr l) = l.map migrateRecord ∧
    (l.map migrateRecord).map migrateRecord = l.map migrateRecord := by
  refine ⟨?_, rfl, ?_⟩
  · intro h
    unfold migrateRecord jsOrString
    rw [h]
  · induction l with
    | nil => rfl
    | cons a rest ih =>
      simp only [List.map_cons]
      rw [migrateRecord_idem, ih]

/-- C8: category lookup is total: every id yields a definition, either the
registered one with that id or the designated fallback, which is the last
expense category (the "other" category); in particular every unregistered
id maps to that fallback. -/
theorem claim_C8_category_fallback (id : String) :
    ((getCategoryConfig id).id = id ∨ getCategoryConfig id = otherCategory) ∧
    (id ∉ CATEGORIES.map (fun c => c.id) → getCategoryConfig id = otherCategory) ∧
    EXPENSE_CATEGORIES.getLastD ⟨"", "", "", ""⟩ = otherCategory := by
  refine ⟨?_, ?_, by decide⟩
  · unfold getCategoryConfig
    cases hf : CATEGORIES.find? (fun c => c.id == id) with
    | none =>
      right
      rfl
    | some c =>
      left
      have := List.find?_some hf
      simpa using this
  · intro hmem
    have hnone : CATEGORIES.find? (fun c => c.id == id) = none := by
      rw [List.find?_eq_none]
      intro c hc
      simp only [beq_iff_eq]
      intro hcid
      exact hmem (by rw [List.mem_map]; exact ⟨c, hc, hcid⟩)
    unfold getCategoryConfig
    rw [hnone]
    rfl

/-- C3: totals invariant: for every transaction set, resolved range and view
mode, `balance = totalIncome - totalExpense`; the totals do not depend on
the view mode; and (over the data model, where every kind is income or
expense) `totalIncome + totalExpense` equals the sum of amounts of the
filtered set. -/
theorem claim_C3_totals_invariant (txs : List Expense) (range : TimeRange)
    (anchor : Int) (vm vm2 : ViewMode)
    (hkind : ∀ x ∈ txs, x.type = "income" ∨ x.type = "expense") :
    balance vm (dateFiltered txs (resolveRange range anchor)) =
      totalIncome vm (dateFiltered txs (resolveRange range anchor)) -
        totalExpense vm (dateFiltered txs (resolveRange range anchor)) ∧
    totalIncome vm (dateFiltered txs (resolveRange range anchor)) =
      totalIncome vm2 (dateFiltered txs (resolveRange range anchor)) ∧
    totalExpense vm (dateFiltered txs (resolveRange range anchor)) =
      totalExpense vm2 (dateFiltered txs (resolveRange range anchor)) ∧
    totalIncome vm (dateFiltered txs (resolveRange range anchor)) +
        totalExpense vm (dateFiltered txs (resolveRange range anchor)) =
      amtSum (dateFiltered txs (resolveRange range anchor)) := by
  have hsub : ∀ x ∈ dateFiltered txs (resolveRange range anchor),
      x.type = "income" ∨ x.type = "expense" := by
    intro x hx
    exact hkind x (List.mem_of_mem_filter hx)
  refine ⟨rfl, ?_, ?_, ?_⟩
  · rw [totalIncome_eq, totalIncome_eq]
  · rw [totalExpense_eq, totalExpense_eq]
  · rw [totalIncome_eq, totalExpense_eq]
    exact sum_wellKinded _ hsub

/-- C5: trend-bucket conservation for week and year granularities: over the
data model (every kind income or expense), the bucket income sums equal
`totalIncome` and the bucket expense sums equal `totalExpense` of the same
filtered set. -/
theorem claim_C5_trend_conservation (txs l : List Expense) (rng : TimeRange)
    (anchor now rs : Int) (vm : ViewMode)
    (hrng : rng = TimeRange.week ∨ rng = TimeRange.year)
    (hl : l = dateFiltered txs (resolveRange rng anchor))
    (hkind : ∀ x ∈ txs, x.type = "income" ∨ x.type = "expense") :
    sumIncome (trendData rng now rs l (totalIncome vm l) (totalExpense vm l)) =
      totalIncome vm l ∧
    sumExpense (trendData rng now rs l (totalIncome vm l) (totalExpense vm l)) =
      totalExpense vm l := by
  have hsub : ∀ x ∈ l, x.type = "income" ∨ x.type = "expense" := by
    subst hl
    intro x hx
    exact hkind x (List.mem_of_mem_filter hx)
  rcases hrng with h | h <;> subst h
  · show sumIncome (trendWeek l) = totalIncome vm l ∧
      sumExpense (trendWeek l) = totalExpense vm l
    rw [totalIncome_eq, totalExpense_eq, (trendWeek_sums l).1, (trendWeek_sums l).2]
    exact ⟨rfl, nonIncSum_wellKinded l hsub⟩
  · show sumIncome (trendYear l) = totalIncome vm l ∧
      sumExpense (trendYear l) = totalExpense vm l
    rw [totalIncome_eq, totalExpense_eq, (trendYear_sums l).1, (trendYear_sums l).2]
    exact ⟨rfl, nonIncSum_wellKinded l hsub⟩

theorem refDaysInMonth_bounds (y m : Int) :
    28 ≤ refDaysInMonth y m ∧ refDaysInMonth y m ≤ 31 := by
  unfold refDaysInMonth
  split_ifs <;> norm_num

/-- C2 (amended): for month granularity the trend series has exactly
today's day-of-month buckets when the resolved month is the current
calendar month (this equals the month's full length exactly when today is
its last day), and exactly that month's day count otherwise; a transaction
dated after the cap contributes to no trend bucket but is still counted in
`totalIncome`/`totalExpense`. -/
theorem claim_C2_month_cap (now rs : Int) (l : List Expense) (e : Expense)
    (vm : ViewMode) :
    ((jsGetFullYear rs = jsGetFullYear now ∧ jsGetMonth rs = jsGetMonth now) →
      ((trendData TimeRange.month now rs l (totalIncome vm l)
          (totalExpense vm l)).length : Int) = jsGetDate now) ∧
    (¬(jsGetFullYear rs = jsGetFullYear now ∧ jsGetMonth rs = jsGetMonth now) →
      ((trendData TimeRange.month now rs l (totalIncome vm l)
          (totalExpense vm l)).length : Int) =
        refDaysInMonth (jsGetFullYear rs) (jsGetMonth rs + 1)) ∧
    (monthLimitDay now rs < jsGetDate e.date →
      trendMonth now rs (e :: l) = trendMonth now rs l ∧
      totalIncome vm (e :: l) =
        totalIncome vm l + (if e.type = "income" then e.amount else 0) ∧
      totalExpense vm (e :: l) =
        totalExpense vm l + (if e.type = "expense" then e.amount else 0)) := by
  have hlen : (trendData TimeRange.month now rs l (totalIncome vm l)
      (totalExpense vm l)).length = (monthLimitDay now rs).toNat :=
    trendMonth_length now rs l
  have hcap := monthLimitDay_eq now rs
  refine ⟨?_, ?_, ?_⟩
  · intro h
    rw [if_pos h] at hcap
    have hd := jsGetDate_range now
    omega
  · intro h
    rw [if_neg h] at hcap
    have hd := refDaysInMonth_bounds (jsGetFullYear rs) (jsGetMonth rs + 1)
    omega
  · intro h
    refine ⟨?_, ?_, ?_⟩
    · unfold trendMonth
      simp only [List.foldl_cons]
      rw [monthStep_skip _ _ _ h]
    · rw [totalIncome_eq, totalIncome_eq]
      unfold incSum
      simp only [List.map_cons, List.sum_cons]
      ring
    · rw [totalExpense_eq, totalExpense_eq]
      unfold expSum
      simp only [List.map_cons, List.sum_cons]
      ring

/-- C2 (counterexample to the claim as stated): with the clock at local
noon of 2024-01-31 and the resolved month January 2024 (the current
month), the trend series has 31 buckets, today's day-of-month, which *is*
the month's full length — refuting "never the month's full length". -/
theorem claim_C2_counterexample :
    jsGetFullYear cexRangeStart = jsGetFullYear cexNow ∧
    jsGetMonth cexRangeStart = jsGetMonth cexNow ∧
    ((trendMonth cexNow cexRangeStart []).length : Int) = jsGetDate cexNow ∧
    jsGetDate cexNow = 31 ∧
    refDaysInMonth (jsGetFullYear cexRangeStart) (jsGetMonth cexRangeStart + 1) = 31 := by
  refine ⟨by decide, by decide, ?_, by decide, by decide⟩
  rw [trendMonth_length]
  decide

/-- C10 (implicit): a filtered transaction whose kind string is neither
"income" nor "expense" (importable, since validation never inspects the
kind value and normalization keeps any non-empty string) is added to the
expense accumulator of its bucket by the week, year and (in-cap) month
trend steps, while the totals pass adds it to neither accumulator; for
positive amounts the bucket expense sums therefore strictly exceed
`totalExpense` (for month, when the filtered set is within the cap). -/
theorem claim_C10_unknown_kind (l : List Expense) (e : Expense) (vm : ViewMode)
    (now rs : Int) (he : e ∈ l) (hni : e.type ≠ "income") (hne : e.type ≠ "expense")
    (hpos : ∀ x ∈ l, 0 < x.amount) :
    (∀ r : RawItem, r.type = some e.type → e.type ≠ "" →
      (normalizeItem r).type = e.type) ∧
    (∀ d : List Bucket, weekStep d e =
      listModify (addExpense e.amount)
        (if jsGetDay e.date - 1 = -1 then 6 else jsGetDay e.date - 1).toNat d) ∧
    (∀ d : List Bucket, yearStep d e =
      listModify (addExpense e.amount) (jsGetMonth e.date).toNat d) ∧
    (∀ (limit : Int) (d : List Bucket), jsGetDate e.date ≤ limit →
      monthStep limit d e =
        listModify (addExpense e.amount) (jsGetDate e.date - 1).toNat d) ∧
    (∀ s : AggState, (aggStep vm s e).inc = s.inc ∧ (aggStep vm s e).exp = s.exp) ∧
    totalExpense vm l < sumExpense (trendWeek l) ∧
    totalExpense vm l < sumExpense (trendYear l) ∧
    ((∀ x ∈ l, jsGetDate x.date ≤ monthLimitDay now rs) →
      totalExpense vm l < sumExpense (trendMonth now rs l)) := by
  have hexceed : expSum l < nonIncSum l := by
    rw [nonIncSum_split]
    have := weirdSum_lower l e he hni hne hpos
    linarith
  refine ⟨?_, ?_, ?_, ?_, ?_, ?_, ?_, ?_⟩
  · intro r hr hne2
    unfold normalizeItem jsOrString
    rw [hr]
    simp [hne2]
  · intro d
    unfold weekStep
    rw [if_neg hni]
  · intro d
    unfold yearStep
    rw [if_neg hni]
  · intro limit d hcap
    unfold monthStep
    rw [if_pos hcap, if_neg hni]
  · intro s
    constructor
    · rw [aggStep_inc, if_neg hni]
      ring
    · rw [aggStep_exp, if_neg hne]
      ring
  · rw [totalExpense_eq, (trendWeek_sums l).2]
    exact hexceed
  · rw [totalExpense_eq, (trendYear_sums l).2]
    exact hexceed
  · intro hcap
    rw [totalExpense_eq, trendMonth_sumExpense,
      capSum_eq_nonIncSum (monthLimitDay now rs) l hcap]
    exact hexceed

theorem resolveWeek_start_eq (t : Int) :
    (resolveRange TimeRange.week t).start =
      jsSetHours (jsSetDate (jsSetHours t 0 0 0 0)
        (jsGetDate (jsSetHours t 0 0 0 0) -
          (if jsGetDay (jsSetHours t 0 0 0 0) = 0 then 7
            else jsGetDay (jsSetHours t 0 0 0 0)) + 1)) 0 0 0 0 := rfl

theorem resolveWeek_stop_eq (t : Int) :
    (resolveRange TimeRange.week t).stop =
      jsSetHours (jsSetDate (resolveRange TimeRange.week t).start
        (jsGetDate (resolveRange TimeRange.week t).start + 6)) 23 59 59 999 := rfl

theorem anchorMidnight_mod (t : Int) : anchorMidnight t % 86400000 = 0 := by
  unfold anchorMidnight jsSetHours msOfDay msPerDay msPerHour msPerMinute msPerSecond
  omega

theorem jsSetDate_shift (t n : Int) :
    jsSetDate t n = t + (n - jsGetDate t) * msPerDay := rfl

/-- C4: the week resolver computes the weekday index with Sunday mapped
to 7 (Monday = 1 .. Sunday = 7), sets `start` to the anchor's midnight
minus (index - 1) days and `stop` to `start` plus six days at end-of-day;
for a Sunday anchor, `start` is the Monday six days earlier and `stop`
that same Sunday at 23:59:59.999. -/
theorem claim_C4_week_resolver (t : Int) :
    (resolveRange TimeRange.week t).start =
      anchorMidnight t - (weekdayIdx t - 1) * msPerDay ∧
    (resolveRange TimeRange.week t).stop =
      (resolveRange TimeRange.week t).start + 6 * msPerDay + (msPerDay - 1) ∧
    1 ≤ weekdayIdx t ∧ weekdayIdx t ≤ 7 ∧
    (jsGetDay (anchorMidnight t) = 1 → weekdayIdx t = 1) ∧
    (jsGetDay (anchorMidnight t) = 0 →
      weekdayIdx t = 7 ∧
      (resolveRange TimeRange.week t).start = anchorMidnight t - 6 * msPerDay ∧
      (resolveRange TimeRange.week t).stop = anchorMidnight t + (msPerDay - 1)) := by
  have hgd := jsGetDay_range (anchorMidnight t)
  have hmid := anchorMidnight_mod t
  have hstart : (resolveRange TimeRange.week t).start =
      anchorMidnight t - (weekdayIdx t - 1) * msPerDay := by
    rw [resolveWeek_start_eq]
    show jsSetHours (jsSetDate (anchorMidnight t)
      (jsGetDate (anchorMidnight t) - weekdayIdx t + 1)) 0 0 0 0 = _
    rw [jsSetDate_shift]
    have harg : anchorMidnight t +
        (jsGetDate (anchorMidnight t) - weekdayIdx t + 1 - jsGetDate (anchorMidnight t)) *
          msPerDay = anchorMidnight t - (weekdayIdx t - 1) * msPerDay := by
      ring
    rw [harg]
    unfold jsSetHours msOfDay msPerDay msPerHour msPerMinute msPerSecond
    omega
  have hstop : (resolveRange TimeRange.week t).stop =
      (resolveRange TimeRange.week t).start + 6 * msPerDay + (msPerDay - 1) := by
    rw [resolveWeek_stop_eq, hstart, jsSetDate_shift]
    have harg : anchorMidnight t - (weekdayIdx t - 1) * msPerDay +
        (jsGetDate (anchorMidnight t - (weekdayIdx t - 1) * msPerDay) + 6 -
          jsGetDate (anchorMidnight t - (weekdayIdx t - 1) * msPerDay)) * msPerDay =
        anchorMidnight t - (weekdayIdx t - 1) * msPerDay + 6 * msPerDay := by
      ring
    rw [harg]
    unfold jsSetHours msOfDay msPerDay msPerHour msPerMinute msPerSecond
    omega
  have hidx : 1 ≤ weekdayIdx t ∧ weekdayIdx t ≤ 7 := by
    unfold weekdayIdx
    split_ifs <;> omega
  refine ⟨hstart, hstop, hidx.1, hidx.2, ?_, ?_⟩
  · intro h
    unfold weekdayIdx
    rw [if_neg (by omega), h]
  · intro h
    have h7 : weekdayIdx t = 7 := by
      unfold weekdayIdx
      rw [if_pos h]
    refine ⟨h7, ?_, ?_⟩
    · rw [hstart, h7]
      ring
    · rw [hstop, hstart, h7]
      unfold msPerDay
      ring

/-- C2 witness: the amended month-cap theorem applied at concrete inputs:
current-month cap (Jan 15, 2024 → 15 buckets), other-month length
(March clock, January range → 31 buckets), and a beyond-cap transaction
left out of the trend but counted in the totals. -/
theorem claim_C2_month_cap_witness :
    (jsGetFullYear w2Rs = jsGetFullYear w2Now ∧ jsGetMonth w2Rs = jsGetMonth w2Now) ∧
    ((trendData TimeRange.month w2Now w2Rs [] (totalIncome ViewMode.overview [])
        (totalExpense ViewMode.overview [])).length : Int) = jsGetDate w2Now ∧
    ((trendData TimeRange.month w2NowOther w2Rs [] (totalIncome ViewMode.overview [])
        (totalExpense ViewMode.overview [])).length : Int) =
      refDaysInMonth (jsGetFullYear w2Rs) (jsGetMonth w2Rs + 1) ∧
    monthLimitDay w2Now w2Rs < jsGetDate w2E.date ∧
    trendMonth w2Now w2Rs [w2E] = trendMonth w2Now w2Rs [] :=
  ⟨by decide,
    (claim_C2_month_cap w2Now w2Rs [] w2E ViewMode.overview).1 (by decide),
    (claim_C2_month_cap w2NowOther w2Rs [] w2E ViewMode.overview).2.1 (by decide),
    by decide,
    ((claim_C2_month_cap w2Now w2Rs [] w2E ViewMode.overview).2.2 (by decide)).1⟩

/-- C3 witness: the totals invariant at a concrete two-transaction March
2024 data set. -/
theorem claim_C3_totals_invariant_witness :
    (∀ x ∈ w3Txs, x.type = "income" ∨ x.type = "expense") ∧
    totalIncome ViewMode.expense (dateFiltered w3Txs (resolveRange TimeRange.month w3Anchor)) +
        totalExpense ViewMode.expense (dateFiltered w3Txs (resolveRange TimeRange.month w3Anchor)) =
      amtSum (dateFiltered w3Txs (resolveRange TimeRange.month w3Anchor)) :=
  ⟨by decide,
    (claim_C3_totals_invariant w3Txs TimeRange.month w3Anchor ViewMode.expense
      ViewMode.overview (by decide)).2.2.2⟩

/-- C4 witness: a Sunday anchor (2024-03-17 15:00): the resolved week runs
from the Monday six days earlier to that Sunday end-of-day. -/
theorem claim_C4_week_resolver_witness :
    jsGetDay (anchorMidnight w4T) = 0 ∧
    weekdayIdx w4T = 7 ∧
    (resolveRange TimeRange.week w4T).start = anchorMidnight w4T - 6 * msPerDay ∧
    (resolveRange TimeRange.week w4T).stop = anchorMidnight w4T + (msPerDay - 1) := by
  have h : jsGetDay (anchorMidnight w4T) = 0 := by decide
  obtain ⟨h7, hs, he⟩ := (claim_C4_week_resolver w4T).2.2.2.2.2 h
  exact ⟨h, h7, hs, he⟩

/-- C5 witness: week-trend conservation at the concrete March 2024 data
set. -/
theorem claim_C5_trend_conservation_witness :
    (∀ x ∈ w3Txs, x.type = "income" ∨ x.type = "expense") ∧
    sumIncome (trendData TimeRange.week 0 0 w5L (totalIncome ViewMode.overview w5L)
        (totalExpense ViewMode.overview w5L)) = totalIncome ViewMode.overview w5L :=
  ⟨by decide,
    (claim_C5_trend_conservation w3Txs w5L TimeRange.week w3Anchor 0 0
      ViewMode.overview (Or.inl rfl) rfl (by decide)).1⟩

/-- C6 witness: an array whose first element has a falsy id aborts
the import and leaves the existing list untouched. -/
theorem claim_C6_import_all_or_nothing_witness :
    (¬ itemTruthyId wFirst = true ∨ ¬ itemTruthyAmount wFirst = true) ∧
    handleImport (ImportPayload.items [wFirst]) wCur =
      ⟨wCur, 0, ImportMsg.formatBadFields⟩ :=
  ⟨Or.inl (by decide),
    (claim_C6_import_all_or_nothing wCur wFirst []).2.2 (Or.inl (by decide))⟩

/-- C7 witness: a record with no kind field is migrated to kind
"expense". -/
theorem claim_C7_migration_stability_witness :
    wR7.type = none ∧ (migrateRecord wR7).type = some "expense" :=
  ⟨rfl, (claim_C7_migration_stability [] wR7).1 rfl⟩

/-- C8 witness: the unregistered id "banana" falls back to the expense
"other" category. -/
theorem claim_C8_category_fallback_witness :
    "banana" ∉ CATEGORIES.map (fun c => c.id) ∧
    getCategoryConfig "banana" = otherCategory :=
  ⟨by decide, (claim_C8_category_fallback "banana").2.1 (by decide)⟩

/-- C9 witness: a concrete merge of one existing record with one new and
one duplicate incoming record: the merged list keeps the existing record
as its first element and adds exactly one. -/
theorem claim_C9_merge_additivity_witness :
    (mergeExpenses w9A w9B).1.length = w9A.length + (mergeExpenses w9A w9B).2 ∧
    (mergeExpenses w9A w9B).1.take w9A.length = w9A :=
  ⟨(claim_C9_merge_additivity w9A w9B).1, (claim_C9_merge_additivity w9A w9B).2.1⟩

/-- C10 witness: a single filtered transaction of kind "transfer" with a
positive amount makes the week-trend bucket expense sum strictly exceed
`totalExpense`. -/
theorem claim_C10_unknown_kind_witness :
    w10E ∈ w10L ∧ w10E.type ≠ "income" ∧ w10E.type ≠ "expense" ∧
    (∀ x ∈ w10L, 0 < x.amount) ∧
    totalExpense ViewMode.overview w10L < sumExpense (trendWeek w10L) :=
  ⟨by decide, by decide, by decide, by decide,
    (claim_C10_unknown_kind w10L w10E ViewMode.overview 0 0 (by decide) (by decide)
      (by decide) (by decide)).2.2.2.2.2.1⟩
